import Mathlib

/-
Verification of the phonebook console application (src/main.py) against its
specification.  The program is shallowly embedded: Python strings are lists of
characters, Python values that can be `None`, an `int` or a `str` are an
inductive `PyVal`, fallible Python code returns `Except PyErr`.  The CSV layer
models `csv.DictWriter`/`csv.DictReader` with the default dialect (delimiter
`,`, quotechar `"`, QUOTE_MINIMAL, doublequote, lineterminator CRLF) composed
with the universal-newline translation that Python's text mode applies when the
repository opens files without a `newline` argument.
-/

set_option maxHeartbeats 1000000

deriving instance DecidableEq for Except

/-- Python strings are modelled as lists of characters. -/
abbrev PyStr := List Char

/-- A dynamically typed Python value as it occurs in `Contact` fields:
`None` (missing CSV cells), `int` (freshly assigned indexes) or `str`. -/
inductive PyVal where
  | vNone : PyVal
  | vInt (n : Int) : PyVal
  | vStr (s : PyStr) : PyVal
deriving DecidableEq, Repr

/-- Python exceptions that the embedded code can raise. -/
inductive PyErr where
  | keyError : PyErr
  | valueError : PyErr
  | attributeError : PyErr
  | indexError : PyErr
deriving DecidableEq, Repr

/-- The `Contact` dataclass of `main.py`: seven fields in declaration order
`index, last_name, name, middle_name, organization, work_phone, private_phone`. -/
structure Contact where
  index : PyVal
  last_name : PyVal
  name : PyVal
  middle_name : PyVal
  organization : PyVal
  work_phone : PyVal
  private_phone : PyVal
deriving DecidableEq, Repr

/-- `Contact.data_row`: the list of the seven field values in declaration
order (`list(self.__dict__.values())`). -/
def Contact.dataRow (c : Contact) : List PyVal :=
  [c.index, c.last_name, c.name, c.middle_name, c.organization,
   c.work_phone, c.private_phone]

/-- The six non-index fields of a contact, in order. -/
def nonIndexData (c : Contact) : List PyVal :=
  [c.last_name, c.name, c.middle_name, c.organization, c.work_phone,
   c.private_phone]

/-- Machine names of the seven contact fields (the `title_en` column of
`field_map`). -/
inductive FieldName where
  | index | last_name | name | middle_name | organization | work_phone
  | private_phone
deriving DecidableEq, Repr

/-- One entry of the field table: machine name and Russian display title. -/
structure FieldEntry where
  en : FieldName
  ru : PyStr
deriving DecidableEq, Repr

/-- The `field_map` dictionary of `main.py`, as an association list with its
numeric menu keys `1..7`. -/
def fieldMap : List (Nat × FieldEntry) :=
  [(1, ⟨.index, "№".data⟩),
   (2, ⟨.last_name, "Фамилия".data⟩),
   (3, ⟨.name, "Имя".data⟩),
   (4, ⟨.middle_name, "Отчество".data⟩),
   (5, ⟨.organization, "Организация".data⟩),
   (6, ⟨.work_phone, "Рабочий телефон".data⟩),
   (7, ⟨.private_phone, "Личный телефон".data⟩)]

/-- `csv_fields`: the Russian column titles in `field_map` order. -/
def csvFieldTitles : List PyStr := fieldMap.map (fun p => p.2.ru)

/-- `field_map[k]` lookup; a missing key raises `KeyError`. -/
def fieldMapGet (k : Nat) : Except PyErr FieldEntry :=
  match fieldMap.find? (fun p => p.1 = k) with
  | some p => .ok p.2
  | none => .error .keyError

/-- `getattr(contact, name)` for the seven known field names. -/
def getattrF (c : Contact) : FieldName → PyVal
  | .index => c.index
  | .last_name => c.last_name
  | .name => c.name
  | .middle_name => c.middle_name
  | .organization => c.organization
  | .work_phone => c.work_phone
  | .private_phone => c.private_phone

/-- Python `str(value)`: `None` prints as `"None"`, ints in decimal,
strings unchanged. -/
def pyStr : PyVal → PyStr
  | .vNone => "None".data
  | .vInt n => (toString n).data
  | .vStr s => s

/-- The string the csv writer emits for a value: like `str` except that
`None` is written as the empty string. -/
def csvStr : PyVal → PyStr
  | .vNone => []
  | .vInt n => (toString n).data
  | .vStr s => s

/-- Python `str.lower()` (ASCII model). -/
def pyLower (s : PyStr) : PyStr := s.map Char.toLower

/-- `value.lower()` on a dynamic value: only strings have the attribute. -/
def pyLowerV : PyVal → Except PyErr PyStr
  | .vStr s => .ok (pyLower s)
  | _ => .error .attributeError

/-- Boolean list-prefix test. -/
def isPrefixList : PyStr → PyStr → Bool
  | [], _ => true
  | _ :: _, [] => false
  | a :: as, b :: bs => a == b && isPrefixList as bs

/-- Python `needle in hay` on strings: contiguous substring test. -/
def strIn (needle : PyStr) : PyStr → Bool
  | [] => isPrefixList needle []
  | c :: t => isPrefixList needle (c :: t) || strIn needle t

/-- Python whitespace test for `str.split()` (ASCII model). -/
def isSpaceChar (c : Char) : Bool :=
  c == ' ' || c == '\t' || c == '\n' || c == '\r'

/-- Helper for `pySplit`, accumulating the current token. -/
def splitAux : PyStr → PyStr → List PyStr
  | [], cur => if cur.isEmpty then [] else [cur]
  | c :: t, cur =>
    if isSpaceChar c then
      if cur.isEmpty then splitAux t [] else cur :: splitAux t []
    else splitAux t (cur ++ [c])

/-- Python `str.split()` with no argument: split on whitespace runs,
dropping empty tokens. -/
def pySplit (s : PyStr) : List PyStr := splitAux s []

/-- Python `str.isnumeric()` (ASCII model: nonempty, all digits). -/
def isNumericStr (s : PyStr) : Bool := !s.isEmpty && s.all Char.isDigit

/-- Python `int(s)` on a digit string. -/
def strToNat (s : PyStr) : Nat :=
  s.foldl (fun a c => a * 10 + (c.toNat - '0'.toNat)) 0

/-- Python `','.join(parts)`. -/
def rowJoin : List PyStr → PyStr
  | [] => []
  | [s] => s
  | s :: ss => s ++ ',' :: rowJoin ss

/-- The universal-newline translation Python's text mode performs on read when
the file is opened without a `newline` argument: CRLF and lone CR both become
LF. -/
def univNL : PyStr → PyStr
  | [] => []
  | ['\r'] => ['\n']
  | '\r' :: '\n' :: t => '\n' :: univNL t
  | '\r' :: c :: t => '\n' :: univNL (c :: t)
  | c :: t => c :: univNL t

/-- Whether QUOTE_MINIMAL must quote a field: it contains the delimiter, the
quote character, or a line-terminator character. -/
def needsQuote (s : PyStr) : Bool :=
  s.any (fun c => c == ',' || c == '"' || c == '\r' || c == '\n')

/-- Double every quote character (`doublequote=True` escaping). -/
def escQ : PyStr → PyStr
  | [] => []
  | c :: t => if c = '"' then '"' :: '"' :: escQ t else c :: escQ t

/-- Serialize one field the way the csv writer does. -/
def writeField (s : PyStr) : PyStr :=
  if needsQuote s then '"' :: (escQ s ++ ['"']) else s

/-- Serialize one row: quoted fields joined by commas, CRLF-terminated. -/
def writeRowCRLF (fs : List PyStr) : PyStr :=
  rowJoin (fs.map writeField) ++ ['\r', '\n']

/-- `CsvFileStorage.save_all(contacts)`: the complete file content written by
`csv.DictWriter` — header row, then one row per contact with every value
converted by the writer (`None` as empty, ints in decimal). -/
def saveAllContent (cs : List Contact) : PyStr :=
  writeRowCRLF csvFieldTitles ++
    (cs.map (fun c => writeRowCRLF (c.dataRow.map csvStr))).flatten

/-- The chunk `CsvFileStorage.add_one(contact)` appends to the file:
`','.join(map(str, contact.data_row))`, with no line terminator and no
quoting. -/
def addOneContent (c : Contact) : PyStr := rowJoin (c.dataRow.map pyStr)

/-- The file content after `add_one(c)` runs on a file holding `content`
(the file is opened in append mode). -/
def addOne (content : PyStr) (c : Contact) : PyStr := content ++ addOneContent c

/-- States of the csv reader's field/record automaton (default dialect,
non-strict).  The input it consumes has already had universal-newline
translation applied, so `\r` never occurs and rows end at `\n`. -/
inductive PState where
  | startRecord | startField | inField | inQuoted | quoteInQuoted
deriving DecidableEq, Repr

/-- One pass of the csv parsing automaton over the remaining input.
Arguments: state, remaining input, current field, current row, finished rows.
Mirrors CPython's `_csv` state machine for the default dialect: a quoted field
may contain delimiters and newlines, `""` inside quotes is a literal quote, a
character after a closing quote is appended to the field (non-strict), a blank
line yields the empty row `[]`, and end of input inside a field ends that
field and row. -/
def csvStep : PState → PyStr → PyStr → List PyStr → List (List PyStr) →
    List (List PyStr)
  | .startRecord, [], _f, _row, acc => acc
  | .startField, [], f, row, acc => acc ++ [row ++ [f]]
  | .inField, [], f, row, acc => acc ++ [row ++ [f]]
  | .inQuoted, [], f, row, acc => acc ++ [row ++ [f]]
  | .quoteInQuoted, [], f, row, acc => acc ++ [row ++ [f]]
  | .startRecord, c :: t, _f, _row, acc =>
    if c = '\n' then csvStep .startRecord t [] [] (acc ++ [[]])
    else if c = '"' then csvStep .inQuoted t [] [] acc
    else if c = ',' then csvStep .startField t [] [[]] acc
    else csvStep .inField t [c] [] acc
  | .startField, c :: t, _f, row, acc =>
    if c = '\n' then csvStep .startRecord t [] [] (acc ++ [row ++ [[]]])
    else if c = '"' then csvStep .inQuoted t [] row acc
    else if c = ',' then csvStep .startField t [] (row ++ [[]]) acc
    else csvStep .inField t [c] row acc
  | .inField, c :: t, f, row, acc =>
    if c = '\n' then csvStep .startRecord t [] [] (acc ++ [row ++ [f]])
    else if c = ',' then csvStep .startField t [] (row ++ [f]) acc
    else csvStep .inField t (f ++ [c]) row acc
  | .inQuoted, c :: t, f, row, acc =>
    if c = '"' then csvStep .quoteInQuoted t f row acc
    else csvStep .inQuoted t (f ++ [c]) row acc
  | .quoteInQuoted, c :: t, f, row, acc =>
    if c = '"' then csvStep .inQuoted t (f ++ ['"']) row acc
    else if c = ',' then csvStep .startField t [] (row ++ [f]) acc
    else if c = '\n' then csvStep .startRecord t [] [] (acc ++ [row ++ [f]])
    else csvStep .inField t (f ++ [c]) row acc

/-- Parse a universal-newline-translated character stream into csv rows. -/
def parseRows (s : PyStr) : List (List PyStr) := csvStep .startRecord s [] [] []

/-- Index of the last occurrence of `t` in `l` (the binding `dict(zip(...))`
keeps for a duplicated key). -/
def lastIdxOf : List PyStr → PyStr → Option Nat
  | [], _ => none
  | x :: xs, t =>
    match lastIdxOf xs t with
    | some i => some (i + 1)
    | none => if x = t then some 0 else none

/-- `row[title]` on a `DictReader` row: `KeyError` when the title is not
among the header's fieldnames, `None` when the row is too short, otherwise the
cell's text.  Cells beyond the header's width land under the rest key and are
never consulted. -/
def dictGet (header row : List PyStr) (t : PyStr) : Except PyErr PyVal :=
  match lastIdxOf header t with
  | none => .error .keyError
  | some i =>
    match row.get? i with
    | some v => .ok (.vStr v)
    | none => .ok .vNone

/-- `Contact(*[row[field] for field in csv_fields])` for one data row. -/
def buildContact (header row : List PyStr) : Except PyErr Contact := do
  let f1 ← dictGet header row ("№".data)
  let f2 ← dictGet header row ("Фамилия".data)
  let f3 ← dictGet header row ("Имя".data)
  let f4 ← dictGet header row ("Отчество".data)
  let f5 ← dictGet header row ("Организация".data)
  let f6 ← dictGet header row ("Рабочий телефон".data)
  let f7 ← dictGet header row ("Личный телефон".data)
  pure ⟨f1, f2, f3, f4, f5, f6, f7⟩

/-- `CsvFileStorage.read_all()` on a file holding `content`: universal-newline
translation, csv parsing, the first row (if any) becomes the header, blank
rows are skipped, and each remaining row builds one `Contact`. -/
def readAll (content : PyStr) : Except PyErr (List Contact) :=
  match parseRows (univNL content) with
  | [] => .ok []
  | header :: dataRows =>
    (dataRows.filter (fun r => !r.isEmpty)).mapM (buildContact header)

/-- In-memory state of the `Phonebook` class: the contact list and
`_last_index` (maintained as the number of contacts). -/
structure PBState where
  contacts : List Contact
  lastIndex : Nat
deriving DecidableEq, Repr

/-- A write the storage performs: a whole-file rewrite (`save_all`) or an
append of a chunk (`add_one`). -/
inductive StoreOp where
  | rewriteAll (content : PyStr) : StoreOp
  | appendChunk (chunk : PyStr) : StoreOp
deriving DecidableEq, Repr

/-- Python `list.remove(c)`: removes the first element equal to `c`,
raising `ValueError` when none is. -/
def removeFirst : List Contact → Contact → Except PyErr (List Contact)
  | [], _ => .error .valueError
  | x :: xs, c =>
    if x = c then .ok xs
    else
      match removeFirst xs c with
      | .ok l => .ok (x :: l)
      | .error e => .error e

/-- `for idx, contact in enumerate(self._contacts, k): contact.index = idx`. -/
def updateIdxFrom (k : Nat) : List Contact → List Contact
  | [] => []
  | c :: cs => { c with index := PyVal.vInt (Int.ofNat k) } :: updateIdxFrom (k + 1) cs

/-- `Phonebook._update_indexes`: reassign `1..len` and reset `_last_index`. -/
def updateIndexes (l : List Contact) : List Contact := updateIdxFrom 1 l

/-- The confirmed branch of `Phonebook._delete_contact` for the validated
1-based index `k`: fetch `contacts[k-1]`, `list.remove` it, reindex, and
rewrite the whole store. -/
def deleteAt (st : PBState) (k : Nat) : Except PyErr (PBState × List StoreOp) :=
  match st.contacts.get? (k - 1) with
  | none => .error .indexError
  | some c =>
    match removeFirst st.contacts c with
    | .error e => .error e
    | .ok l =>
      let contactsNew := updateIndexes l
      .ok ({ contacts := contactsNew, lastIndex := contactsNew.length },
           [StoreOp.rewriteAll (saveAllContent contactsNew)])

/-- The answers `_delete_contact` treats as "no". -/
def noTokens : List PyStr := ["n".data, "н".data, "нет".data, "no".data]

/-- The answers `_delete_contact` treats as "yes". -/
def yesTokens : List PyStr := ["y".data, "д".data, "да".data, "yes".data]

/-- The set the `while answer not in [...]` loop condition tests — note it
lacks the two-letter yes/no words. -/
def exitTokens : List PyStr := ["n".data, "н".data, "y".data, "д".data]

/-- Result of running the delete-confirmation loop on a finite list of
user answers. -/
inductive DelOutcome where
  | menu (st : PBState) (ops : List StoreOp) : DelOutcome
  | prompting (st : PBState) (ops : List StoreOp) : DelOutcome
  | crashed (e : PyErr) (st : PBState) (ops : List StoreOp) : DelOutcome
deriving DecidableEq, Repr

/-- The confirmation loop of `Phonebook._delete_contact`, consuming the given
(user-typed) answers in order.  Each answer is lowercased; a "no" token
returns at once; a "yes" token removes the target, reindexes and rewrites the
store, after which the loop exits only if the answer is also in `exitTokens`;
anything else re-prompts.  `prompting` means the loop was still asking for
input when the answers ran out. -/
def delLoop (target : Contact) : List PyStr → PBState → List StoreOp → DelOutcome
  | [], st, ops => .prompting st ops
  | a :: rest, st, ops =>
    let ans := pyLower a
    if ans ∈ noTokens then .menu st ops
    else if ans ∈ yesTokens then
      match removeFirst st.contacts target with
      | .error e => .crashed e st ops
      | .ok l =>
        let contactsNew := updateIndexes l
        let stNew : PBState := { contacts := contactsNew, lastIndex := contactsNew.length }
        let opsNew := ops ++ [StoreOp.rewriteAll (saveAllContent contactsNew)]
        if ans ∈ exitTokens then .menu stNew opsNew
        else delLoop target rest stNew opsNew
    else delLoop target rest st ops

/-- One field assignment of `_input_contact_data`: empty input keeps the
current value, `---` clears the field, anything else is stored. -/
def applyInput (cur : PyVal) (inp : PyStr) : PyVal :=
  if inp = [] then cur
  else if inp = "---".data then .vStr []
  else .vStr inp

/-- `Phonebook._add_contact` with the six field inputs the user types:
builds `Contact(index=self._last_index + 1)`, fills the fields, appends the
contact to the in-memory list, bumps `_last_index`, and appends one chunk to
the store. -/
def addContactOp (st : PBState) (i1 i2 i3 i4 i5 i6 : PyStr) :
    PBState × List StoreOp :=
  let c : Contact :=
    { index := PyVal.vInt (Int.ofNat (st.lastIndex + 1)),
      last_name := applyInput (.vStr []) i1,
      name := applyInput (.vStr []) i2,
      middle_name := applyInput (.vStr []) i3,
      organization := applyInput (.vStr []) i4,
      work_phone := applyInput (.vStr []) i5,
      private_phone := applyInput (.vStr []) i6 }
  ({ contacts := st.contacts ++ [c], lastIndex := st.lastIndex + 1 },
   [StoreOp.appendChunk (addOneContent c)])

/-- Inner loop of `_find_contacts_by_all_fields`: for each field value of
`c`, lower it (raising `AttributeError` on a non-string such as an `int`
index) and append `c` to the found list when the query occurs in it and `c`
is not yet found. -/
def scanValues (search : PyStr) (c : Contact) :
    List PyVal → List Contact → Except PyErr (List Contact)
  | [], found => .ok found
  | v :: vs, found =>
    match pyLowerV v with
    | .error e => .error e
    | .ok lv =>
      let foundNew :=
        if strIn search lv = true ∧ c ∉ found then found ++ [c] else found
      scanValues search c vs foundNew

/-- Outer loop of `_find_contacts_by_all_fields` over the contact list. -/
def findAllFieldsGo (search : PyStr) :
    List Contact → List Contact → Except PyErr (List Contact)
  | [], found => .ok found
  | c :: cs, found =>
    match scanValues search c c.dataRow found with
    | .error e => .error e
    | .ok foundNew => findAllFieldsGo search cs foundNew

/-- `Phonebook._find_contacts_by_all_fields`: the query is lowercased once,
then every field of every contact is scanned. -/
def findAllFields (searchRaw : PyStr) (contacts : List Contact) :
    Except PyErr (List Contact) :=
  findAllFieldsGo (pyLower searchRaw) contacts []

/-- One search criterion: a field (by machine name) and the query text. -/
structure SearchCondition where
  field : FieldName
  text : PyStr
deriving DecidableEq, Repr

/-- Inner loop of `_find_contacts_by_search_conditions` for one contact:
walk the conditions keeping the matched count `m`; after each condition,
append the contact when `m` equals the total condition count and the contact
is not yet found. -/
def condStep (c : Contact) (total : Nat) :
    List SearchCondition → Nat → List Contact → Except PyErr (List Contact)
  | [], _, found => .ok found
  | s :: rest, m, found =>
    match pyLowerV (getattrF c s.field) with
    | .error e => .error e
    | .ok fv =>
      let mNew := if strIn (pyLower s.text) fv then m + 1 else m
      let foundNew :=
        if mNew = total ∧ c ∉ found then found ++ [c] else found
      condStep c total rest mNew foundNew

/-- Outer loop of `_find_contacts_by_search_conditions`. -/
def findByConditionsGo (conds : List SearchCondition) :
    List Contact → List Contact → Except PyErr (List Contact)
  | [], found => .ok found
  | c :: cs, found =>
    match condStep c conds.length conds 0 found with
    | .error e => .error e
    | .ok foundNew => findByConditionsGo conds cs foundNew

/-- `Phonebook._find_contacts_by_search_conditions`. -/
def findBySearchConditions (conds : List SearchCondition)
    (contacts : List Contact) : Except PyErr (List Contact) :=
  findByConditionsGo conds contacts []

/-- The `_find_contacts_by_all_fields` command as a state transformer: the
method only reads `self._contacts`, accumulates a local result list, and
prints it; it assigns nothing to the state and calls no storage method. -/
def findAllFieldsCmd (st : PBState) (query : PyStr) :
    Except PyErr (List Contact) × PBState × List StoreOp :=
  (findAllFields query st.contacts, st, [])

/-- The `_find_contacts_by_search_conditions` command as a state transformer;
like the all-fields search it reads the list and writes nothing. -/
def findByCondsCmd (st : PBState) (conds : List SearchCondition) :
    Except PyErr (List Contact) × PBState × List StoreOp :=
  (findBySearchConditions conds st.contacts, st, [])

/-- The largest key of the field table (`max(field_map.keys())`). -/
def fieldMapMaxKey : Nat := (fieldMap.map (fun p => p.1)).foldl Nat.max 0

/-- One round of `Phonebook._get_field_indexes` on an input line: the line is
split on whitespace, tokens that are numeric with value in
`range(max(field_map.keys()))` survive the filter, and the line is accepted
exactly when every token survives; `none` means the loop prints an error and
prompts again. -/
def getFieldIndexesStep (line : PyStr) : Option (List Nat) :=
  let toks := pySplit line
  let keep := toks.filter (fun t => isNumericStr t && decide (strToNat t < fieldMapMaxKey))
  if keep.length = toks.length then some (keep.map strToNat) else none

/-- `Phonebook._get_search_conditions`: look every chosen field index up in
the field table (`KeyError` when absent) and pair it with the query text the
user then types. -/
def getSearchConditions : List Nat → List PyStr → Except PyErr (List SearchCondition)
  | [], _ => .ok []
  | k :: ks, texts =>
    match fieldMapGet k with
    | .error e => .error e
    | .ok fld =>
      match getSearchConditions ks texts.tail with
      | .error e => .error e
      | .ok rest => .ok (⟨fld.en, texts.headD []⟩ :: rest)

/-- A contact whose six text fields are empty and whose index is `v`;
`Contact(index=v)` in Python. -/
def blankWith (v : PyVal) : Contact :=
  ⟨v, .vStr [], .vStr [], .vStr [], .vStr [], .vStr [], .vStr []⟩

/-- How one saved field value reads back through `save_all` + `read_all`:
as the writer's string form with universal-newline translation applied. -/
def fieldImage (v : PyVal) : PyVal := .vStr (univNL (csvStr v))

/-- How one saved contact reads back through `save_all` + `read_all`. -/
def contactImage (c : Contact) : Contact :=
  ⟨fieldImage c.index, fieldImage c.last_name, fieldImage c.name,
   fieldImage c.middle_name, fieldImage c.organization,
   fieldImage c.work_phone, fieldImage c.private_phone⟩

/-- The contact a parsed data row of width `≤ 7` produces under the correct
header: cell `i` when present, `None` when the row is too short. -/
def optV (r : List PyStr) (i : Nat) : PyVal :=
  match r.get? i with
  | some v => .vStr v
  | none => .vNone

/-- The contact `read_all` builds from a data row under the correct header:
missing cells are `None`, extra cells are ignored. -/
def padContact (r : List PyStr) : Contact :=
  ⟨optV r 0, optV r 1, optV r 2, optV r 3, optV r 4, optV r 5, optV r 6⟩

/-- The index column of a dense `1..n` contact list. -/
def idxList (n : Nat) : List PyVal :=
  (List.range n).map (fun i => PyVal.vInt (Int.ofNat (i + 1)))

/-- Claim C2: `add_one` writes its row without a line terminator, so the file
it leaves behind — though it parses — makes the next appended row merge with
the last one.  Starting from a fresh store (header only), adding contact 1
yields a file that reads back as that one contact; appending contact 2 to it
yields a file that reads back as a single merged record (contact 2's index
lands in contact 1's `private_phone` cell), not as the two-record sequence
the storage contract describes. -/
theorem add_one_merges_rows :
    readAll (addOne (saveAllContent []) (blankWith (.vInt 1)))
      = .ok [blankWith (.vStr "1".data)] ∧
    readAll (addOne (addOne (saveAllContent []) (blankWith (.vInt 1)))
        (blankWith (.vInt 2)))
      = .ok [⟨.vStr "1".data, .vStr [], .vStr [], .vStr [], .vStr [], .vStr [],
              .vStr "2".data⟩] ∧
    readAll (addOne (addOne (saveAllContent []) (blankWith (.vInt 1)))
        (blankWith (.vInt 2)))
      ≠ .ok [blankWith (.vStr "1".data), blankWith (.vStr "2".data)] := by
  refine ⟨by decide, by decide, by decide⟩

/-- Claim C5: the selected-fields search crashes with `AttributeError` when
the № field (a legal selection, key 1 of the field table) is searched over a
contact whose index is an `int` — the state every freshly added or reindexed
contact is in — instead of returning a result list; on the same contact with
a string index the very same search succeeds. -/
theorem selected_fields_search_crashes_on_int_index :
    findBySearchConditions [⟨.index, "1".data⟩] [blankWith (.vStr "1".data)]
      = .ok [blankWith (.vStr "1".data)] ∧
    findBySearchConditions [⟨.index, "1".data⟩] [blankWith (.vInt 1)]
      = .error .attributeError := by
  refine ⟨by decide, by decide⟩

/-- Claim C6: the all-fields search iterates `contact.__dict__.values()`,
which includes the `index` field, and calls `.lower()` on each value; for any
contact whose index is an `int` (every contact added or reindexed in the
session) the search therefore crashes with `AttributeError` for every query,
instead of returning the match list.  The same search on the same contact
with a string index succeeds. -/
theorem all_fields_search_crashes_on_int_index :
    findAllFields "1".data [blankWith (.vStr "1".data)]
      = .ok [blankWith (.vStr "1".data)] ∧
    findAllFields "x".data [blankWith (.vInt 1)]
      = .error .attributeError := by
  refine ⟨by decide, by decide⟩

/-- Claim C7: the field-number prompt validates tokens against
`range(max(field_map.keys()))`, i.e. `0..6`, not against the keys `1..7`:
the line `"0"` is accepted although `0` is not a key of the field table (so
the subsequent `field_map[0]` lookup in `_get_search_conditions` raises
`KeyError`), while the line `"7"` is rejected although `7` is a valid key. -/
theorem field_index_validation_off_by_one :
    getFieldIndexesStep ("0".data) = some [0] ∧
    getSearchConditions [0] [[]] = .error .keyError ∧
    getFieldIndexesStep ("7".data) = none ∧
    fieldMapGet 7 = .ok ⟨.private_phone, "Личный телефон".data⟩ := by
  refine ⟨by decide, by decide, by decide, by decide⟩

/-- Claim C8: the delete-confirmation loop's exit set is
`['n','н','y','д']`, which omits the accepted yes answers `да` and `yes`.
Answering `да` deletes the record and rewrites the store but then prompts for
confirmation again instead of returning to the menu; answering yes once more
(`y`) attempts a second `list.remove` of the already removed contact and
crashes with `ValueError`. -/
theorem delete_confirm_loop_reprompts_after_da :
    delLoop (blankWith (.vInt 1)) ["да".data] ⟨[blankWith (.vInt 1)], 1⟩ []
      = .prompting ⟨[], 0⟩ [.rewriteAll (saveAllContent [])] ∧
    delLoop (blankWith (.vInt 1)) ["да".data, "y".data]
        ⟨[blankWith (.vInt 1)], 1⟩ []
      = .crashed .valueError ⟨[], 0⟩ [.rewriteAll (saveAllContent [])] ∧
    delLoop (blankWith (.vInt 1)) ["y".data] ⟨[blankWith (.vInt 1)], 1⟩ []
      = .menu ⟨[], 0⟩ [.rewriteAll (saveAllContent [])] ∧
    delLoop (blankWith (.vInt 1)) ["нет".data] ⟨[blankWith (.vInt 1)], 1⟩ []
      = .menu ⟨[blankWith (.vInt 1)], 1⟩ [] := by
  refine ⟨by decide, by decide, by decide, by decide⟩

/-- Claim C4: when `_last_index` agrees with the contact count `K` (the
invariant the constructor establishes and every mutation maintains), adding a
contact appends exactly one record — the prior list is kept as a prefix — and
the new record carries `index = K + 1`. -/
theorem add_assigns_next_index (st : PBState) (i1 i2 i3 i4 i5 i6 : PyStr)
    (h : st.lastIndex = st.contacts.length) :
    ((addContactOp st i1 i2 i3 i4 i5 i6).1).contacts.length
      = st.contacts.length + 1 ∧
    ((addContactOp st i1 i2 i3 i4 i5 i6).1).contacts.dropLast = st.contacts ∧
    (((addContactOp st i1 i2 i3 i4 i5 i6).1).contacts.getLast?).map Contact.index
      = some (PyVal.vInt (Int.ofNat (st.contacts.length + 1))) := by
  refine ⟨?_, ?_, ?_⟩ <;> simp [addContactOp, h]

/-- Evaluation of `add_assigns_next_index` at a concrete state: an empty
phonebook with matching `_last_index`, one typed field. -/
theorem add_assigns_next_index_witness :
    ((addContactOp ⟨[], 0⟩ "a".data [] [] [] [] []).1).contacts.length
      = ([] : List Contact).length + 1 ∧
    ((addContactOp ⟨[], 0⟩ "a".data [] [] [] [] []).1).contacts.dropLast
      = ([] : List Contact) ∧
    (((addContactOp ⟨[], 0⟩ "a".data [] [] [] [] []).1).contacts.getLast?).map
        Contact.index
      = some (PyVal.vInt (Int.ofNat (([] : List Contact).length + 1))) :=
  add_assigns_next_index ⟨[], 0⟩ "a".data [] [] [] [] [] rfl

/-- Every contact `scanValues` accumulates was already found or is the
scanned contact itself. -/
theorem scanValues_mem (search : PyStr) (c : Contact) (vs : List PyVal)
    (found res : List Contact) (h : scanValues search c vs found = .ok res) :
    ∀ x ∈ res, x ∈ found ∨ x = c := by
  induction vs generalizing found with
  | nil =>
    simp only [scanValues] at h
    cases h
    exact fun x hx => Or.inl hx
  | cons v vs ih =>
    simp only [scanValues] at h
    cases hv : pyLowerV v with
    | error e => rw [hv] at h; cases h
    | ok lv =>
      rw [hv] at h
      intro x hx
      rcases ih _ h x hx with hf | hc
      · by_cases hcond : (strIn search lv = true ∧ c ∉ found)
        · rw [if_pos hcond] at hf
          rcases List.mem_append.mp hf with hf' | hc'
          · exact Or.inl hf'
          · exact Or.inr (List.mem_singleton.mp hc')
        · rw [if_neg hcond] at hf
          exact Or.inl hf
      · exact Or.inr hc

/-- Every contact the all-fields scan returns was already found or occurs in
the scanned list. -/
theorem findAllFieldsGo_mem (search : PyStr) (cs : List Contact)
    (found res : List Contact) (h : findAllFieldsGo search cs found = .ok res) :
    ∀ x ∈ res, x ∈ found ∨ x ∈ cs := by
  induction cs generalizing found with
  | nil =>
    simp only [findAllFieldsGo] at h
    cases h
    exact fun x hx => Or.inl hx
  | cons c cs ih =>
    simp only [findAllFieldsGo] at h
    cases hs : scanValues search c c.dataRow found with
    | error e => rw [hs] at h; cases h
    | ok foundNew =>
      rw [hs] at h
      intro x hx
      rcases ih _ h x hx with hf | hcs
      · rcases scanValues_mem _ _ _ _ _ hs x hf with hf' | hc
        · exact Or.inl hf'
        · exact Or.inr (by simp [hc])
      · exact Or.inr (List.mem_cons_of_mem _ hcs)

/-- Every contact `condStep` accumulates was already found or is the
examined contact itself. -/
theorem condStep_mem (c : Contact) (total : Nat) (conds : List SearchCondition)
    (m : Nat) (found res : List Contact)
    (h : condStep c total conds m found = .ok res) :
    ∀ x ∈ res, x ∈ found ∨ x = c := by
  induction conds generalizing m found with
  | nil =>
    simp only [condStep] at h
    cases h
    exact fun x hx => Or.inl hx
  | cons s rest ih =>
    simp only [condStep] at h
    cases hv : pyLowerV (getattrF c s.field) with
    | error e => rw [hv] at h; cases h
    | ok fv =>
      rw [hv] at h
      intro x hx
      rcases ih _ _ h x hx with hf | hc
      · by_cases hcond :
          ((if strIn (pyLower s.text) fv then m + 1 else m) = total ∧ c ∉ found)
        · rw [if_pos hcond] at hf
          rcases List.mem_append.mp hf with hf' | hc'
          · exact Or.inl hf'
          · exact Or.inr (List.mem_singleton.mp hc')
        · rw [if_neg hcond] at hf
          exact Or.inl hf
      · exact Or.inr hc

/-- Every contact the selected-fields scan returns was already found or
occurs in the scanned list. -/
theorem findByConditionsGo_mem (conds : List SearchCondition)
    (cs found res : List Contact)
    (h : findByConditionsGo conds cs found = .ok res) :
    ∀ x ∈ res, x ∈ found ∨ x ∈ cs := by
  induction cs generalizing found with
  | nil =>
    simp only [findByConditionsGo] at h
    cases h
    exact fun x hx => Or.inl hx
  | cons c cs ih =>
    simp only [findByConditionsGo] at h
    cases hs : condStep c conds.length conds 0 found with
    | error e => rw [hs] at h; cases h
    | ok foundNew =>
      rw [hs] at h
      intro x hx
      rcases ih _ h x hx with hf | hcs
      · rcases condStep_mem _ _ _ _ _ _ hs x hf with hf' | hc
        · exact Or.inl hf'
        · exact Or.inr (by simp [hc])
      · exact Or.inr (List.mem_cons_of_mem _ hcs)

/-- Claim C10: both search commands are read-only.  Each leaves the in-memory
state exactly as it was, performs no storage write, and every contact in a
successful result is one of the records already held in the list. -/
theorem searches_are_read_only :
    (∀ (st : PBState) (q : PyStr),
      (findAllFieldsCmd st q).2.1 = st ∧ (findAllFieldsCmd st q).2.2 = []) ∧
    (∀ (st : PBState) (conds : List SearchCondition),
      (findByCondsCmd st conds).2.1 = st ∧ (findByCondsCmd st conds).2.2 = []) ∧
    (∀ (st : PBState) (q : PyStr) (res : List Contact),
      (findAllFieldsCmd st q).1 = .ok res → ∀ x ∈ res, x ∈ st.contacts) ∧
    (∀ (st : PBState) (conds : List SearchCondition) (res : List Contact),
      (findByCondsCmd st conds).1 = .ok res → ∀ x ∈ res, x ∈ st.contacts) := by
  refine ⟨fun st q => ⟨rfl, rfl⟩, fun st conds => ⟨rfl, rfl⟩, ?_, ?_⟩
  · intro st q res h x hx
    rcases findAllFieldsGo_mem _ _ _ _ h x hx with hf | hcs
    · cases hf
    · exact hcs
  · intro st conds res h x hx
    rcases findByConditionsGo_mem _ _ _ _ h x hx with hf | hcs
    · cases hf
    · exact hcs

/-- Reindexing preserves the list length. -/
theorem updateIdxFrom_length (k : Nat) (l : List Contact) :
    (updateIdxFrom k l).length = l.length := by
  induction l generalizing k with
  | nil => rfl
  | cons c cs ih => simp [updateIdxFrom, ih]

/-- After reindexing from `k`, the index column is `k, k+1, ...`. -/
theorem updateIdxFrom_map_index (k : Nat) (l : List Contact) :
    (updateIdxFrom k l).map Contact.index
      = (List.range l.length).map (fun i => PyVal.vInt (Int.ofNat (k + i))) := by
  induction l generalizing k with
  | nil => rfl
  | cons c cs ih =>
    simp only [updateIdxFrom, List.map_cons, ih, List.length_cons,
      List.range_succ_eq_map, List.map_map]
    congr 1
    simp
    intro a ha
    omega

/-- Reindexing touches only the `index` field. -/
theorem updateIdxFrom_map_nonIndex (k : Nat) (l : List Contact) :
    (updateIdxFrom k l).map nonIndexData = l.map nonIndexData := by
  induction l generalizing k with
  | nil => rfl
  | cons c cs ih => simp [updateIdxFrom, nonIndexData, ih]

/-- `list.remove` of the element at position `m` removes exactly that
position when no earlier position holds an equal element. -/
theorem removeFirst_get_eq_eraseIdx (l : List Contact) (m : Nat)
    (hm : m < l.length)
    (hne : ∀ j, (hj : j < l.length) → j ≠ m → l.get ⟨j, hj⟩ ≠ l.get ⟨m, hm⟩) :
    removeFirst l (l.get ⟨m, hm⟩) = .ok (l.eraseIdx m) := by
  induction l generalizing m with
  | nil => cases hm
  | cons x xs ih =>
    cases m with
    | zero => simp [removeFirst, List.eraseIdx]
    | succ n =>
      have hn : n < xs.length := by simpa using hm
      have hx : x ≠ (x :: xs).get ⟨n + 1, hm⟩ :=
        hne 0 (by simp) (by omega)
      simp only [removeFirst]
      rw [if_neg hx]
      have hrec : removeFirst xs (xs.get ⟨n, hn⟩) = .ok (xs.eraseIdx n) := by
        apply ih n hn
        intro j hj hjn
        have := hne (j + 1) (by simpa using hj) (by omega)
        simpa using this
      have hget : (x :: xs).get ⟨n + 1, hm⟩ = xs.get ⟨n, hn⟩ := rfl
      rw [hget, hrec]
      rfl

/-- Claim C3: on a list of `N` contacts whose indexes are the dense sequence
`1..N`, confirmed deletion of the contact at the validated 1-based position
`k` removes exactly that contact, leaves the remaining `N-1` contacts in
their original relative order with all non-index fields untouched, reassigns
the index column to exactly `1..N-1`, and performs one full rewrite of the
store with precisely that list. -/
theorem delete_reindexes_densely (st : PBState) (k : Nat)
    (hidx : st.contacts.map Contact.index = idxList st.contacts.length)
    (hk1 : 1 ≤ k) (hk2 : k ≤ st.contacts.length) :
    deleteAt st k = .ok
      ({ contacts := updateIndexes (st.contacts.eraseIdx (k - 1)),
         lastIndex := st.contacts.length - 1 },
       [StoreOp.rewriteAll
          (saveAllContent (updateIndexes (st.contacts.eraseIdx (k - 1))))]) ∧
    (updateIndexes (st.contacts.eraseIdx (k - 1))).map Contact.index
      = idxList (st.contacts.length - 1) ∧
    (updateIndexes (st.contacts.eraseIdx (k - 1))).map nonIndexData
      = (st.contacts.eraseIdx (k - 1)).map nonIndexData := by
  have hlt : k - 1 < st.contacts.length := by omega
  have hgetidx : ∀ j, (hj : j < st.contacts.length) →
      (st.contacts.get ⟨j, hj⟩).index = PyVal.vInt (Int.ofNat (j + 1)) := by
    intro j hj
    have h1 := List.get_of_eq hidx ⟨j, by simpa using hj⟩
    simp only [List.get_map] at h1
    rw [h1]
    simp [idxList, List.get_map, List.get_range]
  have hne : ∀ j, (hj : j < st.contacts.length) → j ≠ k - 1 →
      st.contacts.get ⟨j, hj⟩ ≠ st.contacts.get ⟨k - 1, hlt⟩ := by
    intro j hj hjk heq
    have h1 := hgetidx j hj
    have h2 := hgetidx (k - 1) hlt
    rw [heq, h2] at h1
    have hval := PyVal.vInt.inj h1
    simp only [Int.ofNat_eq_coe] at hval
    omega
  have hrem : removeFirst st.contacts (st.contacts.get ⟨k - 1, hlt⟩)
      = .ok (st.contacts.eraseIdx (k - 1)) :=
    removeFirst_get_eq_eraseIdx _ _ hlt hne
  have hlen : (st.contacts.eraseIdx (k - 1)).length = st.contacts.length - 1 := by
    rw [List.length_eraseIdx]
    simp [hlt]
  refine ⟨?_, ?_, ?_⟩
  · simp only [deleteAt, List.get?_eq_get hlt, hrem]
    simp only [updateIndexes, updateIdxFrom_length, hlen]
  · simp only [updateIndexes, updateIdxFrom_map_index, hlen, idxList]
    apply List.map_congr_left
    intro i hi
    simp [Nat.add_comm]
  · exact updateIdxFrom_map_nonIndex 1 _

/-- Evaluation of `delete_reindexes_densely` on a concrete two-contact
phonebook, deleting the first record. -/
theorem delete_reindexes_densely_witness :
    deleteAt ⟨[blankWith (.vInt 1), blankWith (.vInt 2)], 2⟩ 1 = .ok
      ({ contacts := updateIndexes
           ([blankWith (.vInt 1), blankWith (.vInt 2)].eraseIdx 0),
         lastIndex := 1 },
       [StoreOp.rewriteAll (saveAllContent (updateIndexes
           ([blankWith (.vInt 1), blankWith (.vInt 2)].eraseIdx 0)))]) ∧
    (updateIndexes ([blankWith (.vInt 1), blankWith (.vInt 2)].eraseIdx 0)).map
        Contact.index = idxList 1 ∧
    (updateIndexes ([blankWith (.vInt 1), blankWith (.vInt 2)].eraseIdx 0)).map
        nonIndexData
      = ([blankWith (.vInt 1), blankWith (.vInt 2)].eraseIdx 0).map nonIndexData :=
  delete_reindexes_densely ⟨[blankWith (.vInt 1), blankWith (.vInt 2)], 2⟩ 1
    (by decide) (by decide) (by decide)

/-- Unfolding: universal newlines on the empty stream. -/
theorem univNL_nil : univNL [] = [] := rfl

/-- Unfolding: CRLF becomes LF. -/
theorem univNL_crlf (t : PyStr) : univNL ('\r' :: '\n' :: t) = '\n' :: univNL t := rfl

/-- Unfolding: a final lone CR becomes LF. -/
theorem univNL_cr_nil : univNL ['\r'] = ['\n'] := rfl

/-- Unfolding: a lone CR (not followed by LF) becomes LF. -/
theorem univNL_cr_cons (c : Char) (t : PyStr) (hc : c ≠ '\n') :
    univNL ('\r' :: c :: t) = '\n' :: univNL (c :: t) := univNL.eq_4 c t hc

/-- Unfolding: any character other than CR passes through. -/
theorem univNL_cons_ne (c : Char) (t : PyStr) (hc : c ≠ '\r') :
    univNL (c :: t) = c :: univNL t :=
  univNL.eq_5 c t (fun h _ => hc h) (fun _ h _ => hc h) (fun _ _ h _ => hc h)

/-- Universal-newline translation distributes over append as long as the
right part does not begin with the LF of a split CRLF pair. -/
theorem univNL_append (a b : PyStr) (hb : b.head? ≠ some '\n') :
    univNL (a ++ b) = univNL a ++ univNL b := by
  induction a using univNL.induct with
  | case1 => rfl
  | case2 =>
    cases b with
    | nil => rfl
    | cons c t =>
      have hc : c ≠ '\n' := fun h => hb (by simp [h])
      simp only [List.singleton_append, univNL_cr_cons c t hc, univNL_cr_nil,
        List.singleton_append]
  | case3 t ih =>
    simp only [List.cons_append, univNL_crlf, ih]
  | case4 c t hne ih =>
    have hc : c ≠ '\n' := fun h => hne h
    simp only [List.cons_append, univNL_cr_cons c (t ++ b) hc,
      univNL_cr_cons c t hc]
    simp only [← List.cons_append, ih]
  | case5 c t h1 h2 h3 ih =>
    have hc : c ≠ '\r' := by
      intro hcr
      cases t with
      | nil => exact h1 hcr rfl
      | cons x xs =>
        by_cases hx : x = '\n'
        · exact h2 xs hcr (by rw [hx])
        · exact h3 x xs hcr rfl
    simp only [List.cons_append, univNL_cons_ne c (t ++ b) hc,
      univNL_cons_ne c t hc, ih]

/-- Quote doubling commutes with newline translation. -/
theorem univNL_escQ (s : PyStr) : univNL (escQ s) = escQ (univNL s) := by
  induction s using univNL.induct with
  | case1 => rfl
  | case2 => rfl
  | case3 t ih =>
    have h1 : escQ ('\r' :: '\n' :: t) = '\r' :: '\n' :: escQ t := by
      simp [escQ]
    rw [h1, univNL_crlf, univNL_crlf, ih]
    simp [escQ]
  | case4 c t hne ih =>
    have hc : c ≠ '\n' := fun h => hne h
    have h1 : escQ ('\r' :: c :: t) = '\r' :: escQ (c :: t) := by
      simp [escQ]
    rw [h1]
    have h2 : univNL ('\r' :: escQ (c :: t)) = '\n' :: univNL (escQ (c :: t)) := by
      by_cases hq : c = '"'
      · rw [show escQ (c :: t) = '"' :: '"' :: escQ t from by simp [escQ, hq]]
        exact univNL_cr_cons _ _ (by decide)
      · rw [show escQ (c :: t) = c :: escQ t from by simp [escQ, hq]]
        exact univNL_cr_cons _ _ hc
    rw [h2, ih, univNL_cr_cons c t hc]
    simp [escQ]
  | case5 c t h1 h2 h3 ih =>
    have hc : c ≠ '\r' := by
      intro hcr
      cases t with
      | nil => exact h1 hcr rfl
      | cons x xs =>
        by_cases hx : x = '\n'
        · exact h2 xs hcr (by rw [hx])
        · exact h3 x xs hcr rfl
    rw [univNL_cons_ne c t hc]
    by_cases hq : c = '"'
    · rw [show escQ (c :: t) = '"' :: '"' :: escQ t from by simp [escQ, hq],
        show escQ (c :: univNL t) = '"' :: '"' :: escQ (univNL t) from by
          simp [escQ, hq]]
      rw [univNL_cons_ne '"' ('"' :: escQ t) (by decide),
        univNL_cons_ne '"' (escQ t) (by decide), ih]
    · rw [show escQ (c :: t) = c :: escQ t from by simp [escQ, hq],
        show escQ (c :: univNL t) = c :: escQ (univNL t) from by simp [escQ, hq]]
      rw [univNL_cons_ne c (escQ t) hc, ih]

/-- Newline translation does not change whether a field needs quoting. -/
theorem needsQuote_univNL (s : PyStr) : needsQuote (univNL s) = needsQuote s := by
  induction s using univNL.induct with
  | case1 => rfl
  | case2 => rfl
  | case3 t ih =>
    rw [univNL_crlf]
    simp [needsQuote, ih]
  | case4 c t hne ih =>
    have hc : c ≠ '\n' := fun h => hne h
    rw [univNL_cr_cons c t hc]
    simp only [needsQuote, List.any_cons] at ih ⊢
    simp [ih]
  | case5 c t h1 h2 h3 ih =>
    have hc : c ≠ '\r' := by
      intro hcr
      cases t with
      | nil => exact h1 hcr rfl
      | cons x xs =>
        by_cases hx : x = '\n'
        · exact h2 xs hcr (by rw [hx])
        · exact h3 x xs hcr rfl
    rw [univNL_cons_ne c t hc]
    simp only [needsQuote, List.any_cons] at ih ⊢
    simp [ih]

/-- Newline translation is the identity on CR-free text. -/
theorem univNL_of_no_cr (s : PyStr) (h : '\r' ∉ s) : univNL s = s := by
  induction s with
  | nil => rfl
  | cons c t ih =>
    have hc : c ≠ '\r' := fun hcc => h (by simp [hcc])
    rw [univNL_cons_ne c t hc, ih (fun ht => h (by simp [ht]))]

/-- A field the writer leaves unquoted contains no CR. -/
theorem no_cr_of_not_needsQuote (s : PyStr) (h : needsQuote s = false) : '\r' ∉ s := by
  intro hmem
  have : needsQuote s = true := by
    simp only [needsQuote, List.any_eq_true]
    exact ⟨'\r', hmem, by decide⟩
  rw [h] at this
  cases this

/-- Newline translation commutes with field serialization. -/
theorem univNL_writeField (s : PyStr) :
    univNL (writeField s) = writeField (univNL s) := by
  by_cases hq : needsQuote s
  · rw [show writeField s = '"' :: (escQ s ++ ['"']) from by simp [writeField, hq],
      show writeField (univNL s) = '"' :: (escQ (univNL s) ++ ['"']) from by
        simp [writeField, needsQuote_univNL, hq]]
    rw [univNL_cons_ne '"' (escQ s ++ ['"']) (by decide)]
    rw [univNL_append (escQ s) ['"'] (by decide), univNL_escQ]
    rfl
  · have hq' : needsQuote s = false := by simpa using hq
    have hs : univNL s = s := univNL_of_no_cr s (no_cr_of_not_needsQuote s hq')
    rw [show writeField s = s from by simp [writeField, hq'], hs,
      show writeField s = s from by simp [writeField, hq']]

/-- Newline translation of a serialized CRLF row yields the serialized row
of the translated fields, LF-terminated. -/
theorem univNL_rowCRLF (fs : List PyStr) (rest : PyStr) :
    univNL (rowJoin (fs.map writeField) ++ '\r' :: '\n' :: rest)
      = rowJoin ((fs.map univNL).map writeField) ++ '\n' :: univNL rest := by
  induction fs with
  | nil =>
    simp only [List.map_nil, rowJoin, List.nil_append]
    rw [univNL_crlf]
  | cons f fs ih =>
    cases fs with
    | nil =>
      simp only [List.map_cons, List.map_nil, rowJoin]
      rw [univNL_append (writeField f) ('\r' :: '\n' :: rest) (by simp),
        univNL_writeField, univNL_crlf]
    | cons f2 fs2 =>
      simp only [List.map_cons, rowJoin] at ih ⊢
      rw [List.append_assoc, List.cons_append]
      rw [univNL_append (writeField f)
        (',' :: (rowJoin (writeField f2 :: fs2.map writeField) ++ '\r' :: '\n' :: rest))
        (by simp)]
      rw [univNL_writeField]
      rw [univNL_cons_ne ','
        (rowJoin (writeField f2 :: fs2.map writeField) ++ '\r' :: '\n' :: rest)
        (by decide)]
      rw [ih]
      simp [List.append_assoc]

/-- The automaton consumes an unquoted field body up to a delimiter. -/
theorem csvStep_inField_comma (t : PyStr) (rest f row acc)
    (h : ∀ c ∈ t, ¬(c = ',' ∨ c = '"' ∨ c = '\r' ∨ c = '\n')) :
    csvStep .inField (t ++ ',' :: rest) f row acc
      = csvStep .startField rest [] (row ++ [f ++ t]) acc := by
  induction t generalizing f with
  | nil =>
    simp [csvStep]
  | cons c t ih =>
    have hc := h c (by simp)
    simp only [List.cons_append, csvStep]
    rw [if_neg (fun hh => hc (by simp [hh])), if_neg (fun hh => hc (by simp [hh]))]
    simp only [List.append_eq]
    rw [ih (f ++ [c]) (fun x hx => h x (by simp [hx]))]
    simp

/-- The automaton consumes an unquoted field body up to end of row. -/
theorem csvStep_inField_nl (t : PyStr) (rest f row acc)
    (h : ∀ c ∈ t, ¬(c = ',' ∨ c = '"' ∨ c = '\r' ∨ c = '\n')) :
    csvStep .inField (t ++ '\n' :: rest) f row acc
      = csvStep .startRecord rest [] [] (acc ++ [row ++ [f ++ t]]) := by
  induction t generalizing f with
  | nil =>
    simp [csvStep]
  | cons c t ih =>
    have hc := h c (by simp)
    simp only [List.cons_append, csvStep]
    rw [if_neg (fun hh => hc (by simp [hh])), if_neg (fun hh => hc (by simp [hh]))]
    simp only [List.append_eq]
    rw [ih (f ++ [c]) (fun x hx => h x (by simp [hx]))]
    simp

/-- The automaton consumes an escaped quoted body up to its closing quote,
undoing the quote doubling. -/
theorem csvStep_inQuoted_escQ (s : PyStr) (rest f row acc) :
    csvStep .inQuoted (escQ s ++ '"' :: rest) f row acc
      = csvStep .quoteInQuoted rest (f ++ s) row acc := by
  induction s generalizing f with
  | nil =>
    simp [escQ, csvStep]
  | cons c t ih =>
    by_cases hc : c = '"'
    · rw [show escQ (c :: t) = '"' :: '"' :: escQ t from by simp [escQ, hc]]
      simp only [List.cons_append, csvStep]
      simp only [if_true]
      simp only [List.append_eq]
      rw [ih (f ++ ['"'])]
      simp [hc]
    · rw [show escQ (c :: t) = c :: escQ t from by simp [escQ, hc]]
      simp only [List.cons_append, csvStep]
      rw [if_neg hc]
      simp only [List.append_eq]
      rw [ih (f ++ [c])]
      simp

/-- A field the writer leaves unquoted contains no delimiter, quote or
newline character. -/
theorem no_special_of_not_needsQuote (g : PyStr) (h : needsQuote g = false) :
    ∀ c ∈ g, ¬(c = ',' ∨ c = '"' ∨ c = '\r' ∨ c = '\n') := by
  intro c hc hor
  have ht : needsQuote g = true := by
    simp only [needsQuote, List.any_eq_true]
    refine ⟨c, hc, ?_⟩
    rcases hor with h1 | h1 | h1 | h1 <;> simp [h1]
  rw [h] at ht
  cases ht

/-- Parsing one serialized field followed by a delimiter recovers the field. -/
theorem csvStep_startField_field_comma (g : PyStr) (rest : PyStr) (row acc) :
    csvStep .startField (writeField g ++ ',' :: rest) [] row acc
      = csvStep .startField rest [] (row ++ [g]) acc := by
  by_cases hq : needsQuote g
  · rw [show writeField g = '"' :: (escQ g ++ ['"']) from by simp [writeField, hq]]
    rw [show ('"' :: (escQ g ++ ['"'])) ++ ',' :: rest
        = '"' :: (escQ g ++ '"' :: ',' :: rest) from by simp]
    rw [show csvStep .startField ('"' :: (escQ g ++ '"' :: ',' :: rest)) [] row acc
        = csvStep .inQuoted (escQ g ++ '"' :: ',' :: rest) [] row acc from by
      simp [csvStep]]
    rw [csvStep_inQuoted_escQ]
    simp [csvStep]
  · have hq' : needsQuote g = false := by simpa using hq
    rw [show writeField g = g from by
      simp only [writeField]
      rw [if_neg hq]]
    cases g with
    | nil => simp [csvStep]
    | cons c t =>
      have hc := no_special_of_not_needsQuote _ hq' c (by simp)
      simp only [List.cons_append, csvStep]
      rw [if_neg (fun hh => hc (by simp [hh])), if_neg (fun hh => hc (by simp [hh])),
        if_neg (fun hh => hc (by simp [hh]))]
      simp only [List.append_eq]
      rw [csvStep_inField_comma t rest [c] row acc
        (fun x hx => no_special_of_not_needsQuote _ hq' x (by simp [hx]))]
      simp

/-- Parsing one serialized final field followed by a newline recovers the
field and finishes the row. -/
theorem csvStep_startField_field_nl (g : PyStr) (rest : PyStr) (row acc) :
    csvStep .startField (writeField g ++ '\n' :: rest) [] row acc
      = csvStep .startRecord rest [] [] (acc ++ [row ++ [g]]) := by
  by_cases hq : needsQuote g
  · rw [show writeField g = '"' :: (escQ g ++ ['"']) from by simp [writeField, hq]]
    rw [show ('"' :: (escQ g ++ ['"'])) ++ '\n' :: rest
        = '"' :: (escQ g ++ '"' :: '\n' :: rest) from by simp]
    rw [show csvStep .startField ('"' :: (escQ g ++ '"' :: '\n' :: rest)) [] row acc
        = csvStep .inQuoted (escQ g ++ '"' :: '\n' :: rest) [] row acc from by
      simp [csvStep]]
    rw [csvStep_inQuoted_escQ]
    simp [csvStep]
  · have hq' : needsQuote g = false := by simpa using hq
    rw [show writeField g = g from by
      simp only [writeField]
      rw [if_neg hq]]
    cases g with
    | nil => simp [csvStep]
    | cons c t =>
      have hc := no_special_of_not_needsQuote _ hq' c (by simp)
      simp only [List.cons_append, csvStep]
      rw [if_neg (fun hh => hc (by simp [hh])), if_neg (fun hh => hc (by simp [hh])),
        if_neg (fun hh => hc (by simp [hh]))]
      simp only [List.append_eq]
      rw [csvStep_inField_nl t rest [c] row acc
        (fun x hx => no_special_of_not_needsQuote _ hq' x (by simp [hx]))]
      simp

/-- Parsing the first serialized field of a row recovers the field. -/
theorem csvStep_startRecord_field_comma (g : PyStr) (rest : PyStr) (acc) :
    csvStep .startRecord (writeField g ++ ',' :: rest) [] [] acc
      = csvStep .startField rest [] [g] acc := by
  by_cases hq : needsQuote g
  · rw [show writeField g = '"' :: (escQ g ++ ['"']) from by simp [writeField, hq]]
    rw [show ('"' :: (escQ g ++ ['"'])) ++ ',' :: rest
        = '"' :: (escQ g ++ '"' :: ',' :: rest) from by simp]
    rw [show csvStep .startRecord ('"' :: (escQ g ++ '"' :: ',' :: rest)) [] [] acc
        = csvStep .inQuoted (escQ g ++ '"' :: ',' :: rest) [] [] acc from by
      simp [csvStep]]
    rw [csvStep_inQuoted_escQ]
    simp [csvStep]
  · have hq' : needsQuote g = false := by simpa using hq
    rw [show writeField g = g from by
      simp only [writeField]
      rw [if_neg hq]]
    cases g with
    | nil => simp [csvStep]
    | cons c t =>
      have hc := no_special_of_not_needsQuote _ hq' c (by simp)
      simp only [List.cons_append, csvStep]
      rw [if_neg (fun hh => hc (by simp [hh])), if_neg (fun hh => hc (by simp [hh])),
        if_neg (fun hh => hc (by simp [hh]))]
      simp only [List.append_eq]
      rw [csvStep_inField_comma t rest [c] [] acc
        (fun x hx => no_special_of_not_needsQuote _ hq' x (by simp [hx]))]
      simp

/-- Parsing the remaining serialized fields of a row recovers them all. -/
theorem csvStep_startField_rowJoin (gs : List PyStr) (hne : gs ≠ [])
    (rest : PyStr) (row : List PyStr) (acc : List (List PyStr)) :
    csvStep .startField (rowJoin (gs.map writeField) ++ '\n' :: rest) [] row acc
      = csvStep .startRecord rest [] [] (acc ++ [row ++ gs]) := by
  induction gs generalizing row with
  | nil => cases hne rfl
  | cons g gs ih =>
    cases gs with
    | nil =>
      simp only [List.map_cons, List.map_nil, rowJoin]
      rw [csvStep_startField_field_nl]
    | cons g2 gs2 =>
      simp only [List.map_cons, rowJoin]
      rw [List.append_assoc, List.cons_append]
      rw [csvStep_startField_field_comma]
      rw [show writeField g2 :: gs2.map writeField
          = (g2 :: gs2).map writeField from rfl]
      rw [ih (by simp) (row ++ [g])]
      simp

/-- Parsing one serialized LF-terminated row (of at least two fields)
recovers exactly its field list. -/
theorem csvStep_startRecord_rowJoin (gs : List PyStr) (h2 : 2 ≤ gs.length)
    (rest : PyStr) (acc : List (List PyStr)) :
    csvStep .startRecord (rowJoin (gs.map writeField) ++ '\n' :: rest) [] [] acc
      = csvStep .startRecord rest [] [] (acc ++ [gs]) := by
  cases gs with
  | nil => simp at h2
  | cons g gs =>
    cases gs with
    | nil => simp at h2
    | cons g2 gs2 =>
      simp only [List.map_cons, rowJoin]
      rw [List.append_assoc, List.cons_append]
      rw [csvStep_startRecord_field_comma]
      rw [show writeField g2 :: gs2.map writeField
          = (g2 :: gs2).map writeField from rfl]
      rw [csvStep_startField_rowJoin (g2 :: gs2) (by simp) rest [g] acc]
      simp

/-- Parsing the translated serialized contact rows recovers one row per
contact, each holding the translated writer strings of its fields. -/
theorem csvStep_contact_rows (cs : List Contact) (acc : List (List PyStr)) :
    csvStep .startRecord
        (univNL ((cs.map (fun c => writeRowCRLF (c.dataRow.map csvStr))).flatten))
        [] [] acc
      = acc ++ cs.map (fun c => (c.dataRow.map csvStr).map univNL) := by
  induction cs generalizing acc with
  | nil => simp [csvStep, univNL]
  | cons c cs ih =>
    simp only [List.map_cons, List.flatten_cons]
    rw [show writeRowCRLF (c.dataRow.map csvStr)
          ++ (cs.map (fun c => writeRowCRLF (c.dataRow.map csvStr))).flatten
        = rowJoin ((c.dataRow.map csvStr).map writeField)
          ++ '\r' :: '\n' :: (cs.map (fun c => writeRowCRLF (c.dataRow.map csvStr))).flatten
      from by simp [writeRowCRLF]]
    rw [univNL_rowCRLF]
    rw [csvStep_startRecord_rowJoin _ (by simp [Contact.dataRow]) _ _]
    rw [ih]
    simp

/-- The file `save_all` writes parses back as the header row followed by one
row per contact whose cells are the newline-translated writer strings. -/
theorem parse_saveAll (cs : List Contact) :
    parseRows (univNL (saveAllContent cs))
      = csvFieldTitles :: cs.map (fun c => (c.dataRow.map csvStr).map univNL) := by
  have hmap : csvFieldTitles.map univNL = csvFieldTitles := by decide
  rw [show saveAllContent cs
      = rowJoin (csvFieldTitles.map writeField)
        ++ '\r' :: '\n'
          :: (cs.map (fun c => writeRowCRLF (c.dataRow.map csvStr))).flatten
    from by simp [saveAllContent, writeRowCRLF]]
  rw [parseRows, univNL_rowCRLF, hmap]
  rw [csvStep_startRecord_rowJoin _ (by decide) _ _]
  rw [csvStep_contact_rows]
  simp

/-- A successful title lookup returns the cell at the title's position, or
`None` past the row's end. -/
theorem dictGet_some (header row : List PyStr) (t : PyStr) (i : Nat)
    (h : lastIdxOf header t = some i) :
    dictGet header row t = .ok (optV row i) := by
  simp only [dictGet, h, optV]
  cases row.get? i <;> rfl

/-- Under the correct header, building a contact from any row succeeds and
pads or truncates the row to the seven fields. -/
theorem buildContact_titles (r : List PyStr) :
    buildContact csvFieldTitles r = .ok (padContact r) := by
  simp only [buildContact,
    dictGet_some csvFieldTitles r ("№".data) 0 (by decide),
    dictGet_some csvFieldTitles r ("Фамилия".data) 1 (by decide),
    dictGet_some csvFieldTitles r ("Имя".data) 2 (by decide),
    dictGet_some csvFieldTitles r ("Отчество".data) 3 (by decide),
    dictGet_some csvFieldTitles r ("Организация".data) 4 (by decide),
    dictGet_some csvFieldTitles r ("Рабочий телефон".data) 5 (by decide),
    dictGet_some csvFieldTitles r ("Личный телефон".data) 6 (by decide)]
  rfl

/-- `mapM` over pointwise-successful computations succeeds with the map. -/
theorem mapM_eq_ok {α β : Type} (f : α → Except PyErr β) (g : α → β)
    (l : List α) (h : ∀ a ∈ l, f a = .ok (g a)) :
    l.mapM f = .ok (l.map g) := by
  induction l with
  | nil => rfl
  | cons a l ih =>
    rw [List.mapM_cons, h a (by simp), ih (fun x hx => h x (by simp [hx]))]
    rfl

/-- The general round-trip image: `read_all` after `save_all` returns one
record per saved contact with each field replaced by its read-back image. -/
theorem save_roundtrip_image (cs : List Contact) :
    readAll (saveAllContent cs) = .ok (cs.map contactImage) := by
  simp only [readAll, parse_saveAll]
  have hfil : (cs.map (fun c => (c.dataRow.map csvStr).map univNL)).filter
      (fun r => !r.isEmpty) = cs.map (fun c => (c.dataRow.map csvStr).map univNL) := by
    apply List.filter_eq_self.mpr
    intro r hr
    rcases List.mem_map.mp hr with ⟨c, _, rfl⟩
    simp [Contact.dataRow]
  rw [hfil]
  rw [mapM_eq_ok (buildContact csvFieldTitles) padContact _
    (fun r _ => buildContact_titles r)]
  rw [List.map_map]
  rfl

/-- Claim C9 (amended): on any file whose parsed first row is the expected
header, `read_all` never raises for malformed data rows: it returns one
record per non-blank data row, reading missing cells as `None` and ignoring
extra cells; an error (`KeyError`, not a dedicated FormatError, which does
not exist in the program) arises only when an expected title is missing from
the header and at least one data row exists, as in the second conjunct. -/
theorem read_all_row_contract :
    (∀ (content : PyStr) (dataRows : List (List PyStr)),
      parseRows (univNL content) = csvFieldTitles :: dataRows →
      readAll content
        = .ok ((dataRows.filter (fun r => !r.isEmpty)).map padContact)) ∧
    readAll ("a,b\n1,2".data) = .error .keyError := by
  constructor
  · intro content dataRows hp
    simp only [readAll, hp]
    exact mapM_eq_ok _ _ _ (fun r _ => buildContact_titles r)
  · decide

/-- Evaluation of `read_all_row_contract` on a concrete well-formed header
with one short data row. -/
theorem read_all_row_contract_witness :
    readAll ("№,Фамилия,Имя,Отчество,Организация,Рабочий телефон,Личный телефон\n1,a".data)
      = .ok (([["1".data, "a".data]].filter (fun r => !r.isEmpty)).map padContact) :=
  read_all_row_contract.1
    ("№,Фамилия,Имя,Отчество,Организация,Рабочий телефон,Личный телефон\n1,a".data)
    [["1".data, "a".data]] (by decide)

/-- Claim C9 counterexample: a structurally malformed data row (three cells
instead of seven) does not make `read_all` fail; it yields a record with
`None` in the missing fields. -/
theorem read_all_accepts_short_row :
    readAll ("№,Фамилия,Имя,Отчество,Организация,Рабочий телефон,Личный телефон\r\n1,a,b".data)
      = .ok [⟨.vStr "1".data, .vStr "a".data, .vStr "b".data, .vNone, .vNone,
             .vNone, .vNone⟩] := by
  decide

/-- Claim C1 counterexample: saving a contact whose index is the `int` 1 and
reloading returns the index as the string "1", so the reloaded record
sequence is not field-for-field equal to the in-memory list at save time. -/
theorem save_then_read_not_identity :
    readAll (saveAllContent [blankWith (.vInt 1)])
      = .ok [blankWith (.vStr "1".data)] ∧
    (blankWith (.vStr "1".data)) ≠ (blankWith (.vInt 1)) := by
  refine ⟨by decide, by decide⟩

/-- Whether a dynamic value is a carriage-return-free string — the values for
which the storage round trip is the identity. -/
def isCrFreeStr : PyVal → Bool
  | .vStr s => decide ('\r' ∉ s)
  | _ => false

/-- On a CR-free string value the read-back image is the value itself. -/
theorem fieldImage_of_crfree (v : PyVal) (h : isCrFreeStr v = true) :
    fieldImage v = v := by
  cases v with
  | vStr s =>
    simp only [fieldImage, csvStr]
    rw [univNL_of_no_cr s (by simpa [isCrFreeStr] using h)]
  | vNone => simp [isCrFreeStr] at h
  | vInt n => simp [isCrFreeStr] at h

/-- A contact all of whose fields are CR-free strings reads back unchanged. -/
theorem contactImage_eq_self (c : Contact)
    (h : ∀ v ∈ c.dataRow, isCrFreeStr v = true) : contactImage c = c := by
  have h1 := fieldImage_of_crfree c.index (h _ (by simp [Contact.dataRow]))
  have h2 := fieldImage_of_crfree c.last_name (h _ (by simp [Contact.dataRow]))
  have h3 := fieldImage_of_crfree c.name (h _ (by simp [Contact.dataRow]))
  have h4 := fieldImage_of_crfree c.middle_name (h _ (by simp [Contact.dataRow]))
  have h5 := fieldImage_of_crfree c.organization (h _ (by simp [Contact.dataRow]))
  have h6 := fieldImage_of_crfree c.work_phone (h _ (by simp [Contact.dataRow]))
  have h7 := fieldImage_of_crfree c.private_phone (h _ (by simp [Contact.dataRow]))
  simp only [contactImage, h1, h2, h3, h4, h5, h6, h7]

/-- Claim C1 (amended): `read_all` after `save_all` returns exactly one
record per saved contact, each field being the string form the writer gave
the saved value (`None` as empty text, an integer index as its decimal
string) with CR and CRLF normalized to LF by the text layer; when every
field of every saved contact is a CR-free string — as for records loaded
from storage — the round trip is field-for-field identity.  An integer
index, however, always reads back as a string, so the identity fails on
freshly added or reindexed contacts. -/
theorem save_then_read_all_string_images :
    (∀ cs : List Contact,
      readAll (saveAllContent cs) = .ok (cs.map contactImage)) ∧
    (∀ cs : List Contact,
      (∀ c ∈ cs, ∀ v ∈ c.dataRow, isCrFreeStr v = true) →
      readAll (saveAllContent cs) = .ok cs) := by
  refine ⟨save_roundtrip_image, ?_⟩
  intro cs h
  rw [save_roundtrip_image cs]
  have hmap : cs.map contactImage = cs.map id :=
    List.map_congr_left (fun c hc => contactImage_eq_self c (h c hc))
  rw [hmap, List.map_id]

/-- Evaluation of `save_then_read_all_string_images` on a one-contact list
whose fields are all plain strings: the round trip is the identity. -/
theorem save_then_read_all_string_images_witness :
    readAll (saveAllContent [blankWith (.vStr "x".data)])
      = .ok [blankWith (.vStr "x".data)] :=
  save_then_read_all_string_images.2 [blankWith (.vStr "x".data)] (by decide)
